import Mathlib

/-!
Verification development for the ransom_live_pull tool (src/pull.py).

The program fetches a JSON array of ransomware-incident records, filters the
records to US victims whose reference date lies within a lookback window,
sorts them ascending by discovery date, and flattens each surviving record
to a fixed 14-column CSV row.

The embedding below models JSON values (`JVal`), Python truthiness and the
`or` idiom, the multi-format date parser `parse_date` (a faithful fragment
of `datetime.fromisoformat` for CPython 3.10 plus the three `strptime`
formats tried by the code), the URL-id extractor, the record flattener, and
the filter/sort pipeline of `main`.  Aware datetimes are represented by
their UTC instant in microseconds since 0001-01-01T00:00:00 UTC, which is
the only observable the program uses (comparisons against the cutoff and
the sort key).  Fallible Python operations (AttributeError on calling a
string method of a non-string, TypeError from `len`) are modelled with
`Except Unit`.
-/

set_option maxRecDepth 8192

namespace RansomPull

/-- JSON values as delivered by the upstream API.  JSON objects nested in
record fields are not needed by any claim and are omitted from the value
universe; numbers are modelled as integers. -/
inductive JVal where
  | null
  | bool (b : Bool)
  | num (n : Int)
  | str (s : String)
  | list (xs : List JVal)

/-- A raw incident record: a Python dict with string keys.  Key lookup
returns the first binding, matching dict semantics (keys are unique in a
parsed JSON object). -/
abbrev JRecord := List (String × JVal)

/-- Model of `rec.get(k)` returning an optional value. -/
def jget : JRecord → String → Option JVal
  | [], _ => none
  | (k, v) :: rest, key => if k == key then some v else jget rest key

/-- Model of `rec.get(k)`: absent keys give Python `None`, which we conflate
with JSON null (both are the Python value `None`). -/
def getJ (rec : JRecord) (k : String) : JVal :=
  (jget rec k).getD JVal.null

/-- Model of `rec.get(k, d)` with an explicit default. -/
def getJD (rec : JRecord) (k : String) (d : JVal) : JVal :=
  (jget rec k).getD d

/-- Python truthiness on our value universe: None, False, 0, empty string
and empty list are falsy. -/
def pyFalsy : JVal → Bool
  | JVal.null => true
  | JVal.bool b => !b
  | JVal.num n => n == 0
  | JVal.str s => s == ""
  | JVal.list xs => xs.isEmpty

/-- Model of the Python expression `a or b`. -/
def pyOr (a b : JVal) : JVal :=
  if pyFalsy a then b else a

/-- Model of `str.upper()` on the ASCII fragment used by the program. -/
def pyUpper (s : String) : String :=
  String.mk (s.data.map Char.toUpper)

/-- A single-quote character, used by the Python repr of strings. -/
def squote : String := String.mk [Char.ofNat 39]

/-- Model of Python `repr` on our value universe (fragment: string escaping
is not modelled; the program only ever applies `str` to non-list values). -/
def pyRepr : JVal → String
  | JVal.null => "None"
  | JVal.bool true => "True"
  | JVal.bool false => "False"
  | JVal.num n => toString n
  | JVal.str s => squote ++ s ++ squote
  | JVal.list xs => "[" ++ String.intercalate ", " (xs.attach.map (fun p => pyRepr p.1)) ++ "]"
decreasing_by
  have := List.sizeOf_lt_of_mem p.2
  simp only [JVal.list.sizeOf_spec]
  omega

/-- Model of Python `str(v)`. -/
def pyStr : JVal → String
  | JVal.str s => s
  | v => pyRepr v

/-- Model of Python `len(v)`: defined for sized values, a TypeError (our
`Except Unit` error) otherwise. -/
def pyLen : JVal → Except Unit Int
  | JVal.list xs => Except.ok xs.length
  | JVal.str s => Except.ok s.length
  | _ => Except.error ()

/-! ## Character utilities for the date parser -/

/-- Python `str.strip()` whitespace set (ASCII fragment). -/
def isPySpace (c : Char) : Bool :=
  c == ' ' || c == '\t' || c == '\n' || c == '\r' || c == Char.ofNat 11 || c == Char.ofNat 12

/-- Model of `s.strip()`. -/
def pyStripChars (l : List Char) : List Char :=
  ((l.dropWhile isPySpace).reverse.dropWhile isPySpace).reverse

/-- Does the string end with the character Z, as tested by `s.endswith("Z")`. -/
def endsZ (l : List Char) : Bool :=
  match l.getLast? with
  | some c => c == 'Z'
  | none => false

/-- Model of the assignment `s = s[:-1] + "+00:00"` guarded by `endswith("Z")`. -/
def zrepl (l : List Char) : List Char :=
  if endsZ l then l.dropLast ++ ['+', '0', '0', ':', '0', '0'] else l

def dig? (c : Char) : Option Nat :=
  if '0' ≤ c ∧ c ≤ '9' then some (c.toNat - 48) else none

/-- Read exactly two digits. -/
def read2 : List Char → Option (Nat × List Char)
  | a :: b :: rest =>
    match dig? a, dig? b with
    | some x, some y => some (10 * x + y, rest)
    | _, _ => none
  | _ => none

/-- Read exactly four digits. -/
def read4 : List Char → Option (Nat × List Char)
  | a :: b :: c :: d :: rest =>
    match dig? a, dig? b, dig? c, dig? d with
    | some w, some x, some y, some z => some (1000 * w + 100 * x + 10 * y + z, rest)
    | _, _, _, _ => none
  | _ => none

/-- Read exactly six digits. -/
def read6 (l : List Char) : Option (Nat × List Char) :=
  match read4 l with
  | some (a, rest) =>
    match read2 rest with
    | some (b, rest2) => some (100 * a + b, rest2)
    | none => none
  | none => none

def digitsVal (l : List Char) : Nat :=
  l.foldl (fun a c => 10 * a + (c.toNat - 48)) 0

/-! ## Calendar arithmetic

Instants are microseconds since 0001-01-01T00:00:00 UTC.  `toDays` is the
standard proleptic-Gregorian day number with 0001-01-01 as day 0. -/

def isLeap (y : Nat) : Bool :=
  (y % 4 == 0 && y % 100 != 0) || (y % 400 == 0)

def daysInMonthL (leap : Bool) (m : Nat) : Nat :=
  match m with
  | 1 => 31
  | 2 => if leap then 29 else 28
  | 3 => 31
  | 4 => 30
  | 5 => 31
  | 6 => 30
  | 7 => 31
  | 8 => 31
  | 9 => 30
  | 10 => 31
  | 11 => 30
  | 12 => 31
  | _ => 0

def daysInMonth (y m : Nat) : Nat := daysInMonthL (isLeap y) m

def baseDBM (m : Nat) : Nat :=
  match m with
  | 1 => 0
  | 2 => 31
  | 3 => 59
  | 4 => 90
  | 5 => 120
  | 6 => 151
  | 7 => 181
  | 8 => 212
  | 9 => 243
  | 10 => 273
  | 11 => 304
  | 12 => 334
  | _ => 0

/-- Days in the year strictly before month `m`. -/
def daysBeforeMonth (leap : Bool) (m : Nat) : Nat :=
  baseDBM m + (if leap ∧ 3 ≤ m then 1 else 0)

/-- Day number of a civil date, 0001-01-01 being day 0. -/
def toDays (y m d : Nat) : Nat :=
  365 * (y - 1) + (y - 1) / 4 - (y - 1) / 100 + (y - 1) / 400
    + daysBeforeMonth (isLeap y) m + (d - 1)

/-- Microseconds since 0001-01-01T00:00:00 of naive civil fields. -/
def toMicro (y m d h mi s us : Nat) : Nat :=
  (toDays y m d * 86400 + h * 3600 + mi * 60 + s) * 1000000 + us

/-- The instant of `datetime.max.replace(tzinfo=timezone.utc)`, that is
9999-12-31T23:59:59.999999 UTC. -/
def maxMicro : Nat := toMicro 9999 12 31 23 59 59 999999

/-- An aware or naive Python datetime: civil fields plus an optional UTC
offset in microseconds. -/
structure PyDT where
  year : Nat
  month : Nat
  day : Nat
  hour : Nat
  minute : Nat
  second : Nat
  usec : Nat
  off : Option Int

/-- Field validation performed by the `datetime` constructor. -/
def validAllB (y m d h mi s us : Nat) : Bool :=
  decide (1 ≤ y) && decide (y ≤ 9999) && decide (1 ≤ m) && decide (m ≤ 12)
    && decide (1 ≤ d) && decide (d ≤ daysInMonth y m)
    && decide (h ≤ 23) && decide (mi ≤ 59) && decide (s ≤ 59) && decide (us ≤ 999999)

/-- The `timezone` constructor accepts offsets strictly between -24h and +24h. -/
def offOKB : Option Int → Bool
  | none => true
  | some o => decide (-86400000000 < o) && decide (o < 86400000000)

/-- Smart constructor standing for `datetime(...)` with an optional tz:
validates all fields like the CPython constructor does. -/
def mkDT (y m d h mi s us : Nat) (off : Option Int) : Option PyDT :=
  if validAllB y m d h mi s us && offOKB off then
    some ⟨y, m, d, h, mi, s, us, off⟩
  else none

/-- Constructor for the strptime paths: `datetime.strptime(...)` followed by
`.replace(tzinfo=timezone.utc)`, returning the UTC instant directly. -/
def mkNaive (y m d h mi s us : Nat) : Option Int :=
  if validAllB y m d h mi s us then some ((toMicro y m d h mi s us : Nat) : Int) else none

/-! ## fromisoformat (CPython 3.10 grammar fragment) -/

/-- Parse the date part `YYYY-MM-DD` (exactly 4-2-2 digits). -/
def parseDateYMD (l : List Char) : Option (Nat × Nat × Nat × List Char) :=
  match read4 l with
  | none => none
  | some (y, r1) =>
    match r1 with
    | '-' :: r2 =>
      match read2 r2 with
      | none => none
      | some (m, r3) =>
        match r3 with
        | '-' :: r4 =>
          match read2 r4 with
          | none => none
          | some (d, r5) => some (y, m, d, r5)
        | _ => none
    | _ => none

/-- Fraction after the dot: exactly 3 or 6 digits. -/
def readFrac (l : List Char) : Option (Nat × List Char) :=
  let ds := l.takeWhile (fun c => decide ('0' ≤ c ∧ c ≤ '9'))
  let rest := l.drop ds.length
  if ds.length = 3 then some (digitsVal ds * 1000, rest)
  else if ds.length = 6 then some (digitsVal ds, rest)
  else none

/-- Parse the time part, hour then optional minute, second and fraction, as
fromisoformat does. -/
def parseHMSF (l : List Char) : Option (Nat × Nat × Nat × Nat × List Char) :=
  match read2 l with
  | none => none
  | some (h, r1) =>
    match r1 with
    | ':' :: r2 =>
      match read2 r2 with
      | none => none
      | some (mi, r3) =>
        match r3 with
        | ':' :: r4 =>
          match read2 r4 with
          | none => none
          | some (s, r5) =>
            match r5 with
            | '.' :: r6 =>
              match readFrac r6 with
              | none => none
              | some (us, r7) => some (h, mi, s, us, r7)
            | _ => some (h, mi, s, 0, r5)
        | _ => some (h, mi, 0, 0, r3)
    | _ => some (h, 0, 0, 0, r1)

/-- Parse the timezone digits after the sign: `HH:MM`, `HH:MM:SS` or
`HH:MM:SS.ffffff`, consuming the whole remainder. -/
def parseTZcomps (r : List Char) : Option (Nat × Nat × Nat × Nat) :=
  match read2 r with
  | some (th, ':' :: r2) =>
    match read2 r2 with
    | some (tm, []) => some (th, tm, 0, 0)
    | some (tm, ':' :: r3) =>
      match read2 r3 with
      | some (ts, []) => some (th, tm, ts, 0)
      | some (ts, '.' :: r4) =>
        match read6 r4 with
        | some (tus, []) => some (th, tm, ts, tus)
        | _ => none
      | _ => none
    | _ => none
  | _ => none

/-- Component parse of an isoformat string: date, optional separator (any
single character) plus time, optional signed timezone tail. -/
def isoComps (l : List Char) :
    Option (Nat × Nat × Nat × Nat × Nat × Nat × Nat × Option Int) :=
  match parseDateYMD l with
  | none => none
  | some (y, m, d, rest) =>
    match rest with
    | [] => some (y, m, d, 0, 0, 0, 0, none)
    | _sep :: trest =>
      match parseHMSF trest with
      | none => none
      | some (h, mi, s, us, r2) =>
        match r2 with
        | [] => some (y, m, d, h, mi, s, us, none)
        | c :: r3 =>
          if c = '+' ∨ c = '-' then
            match parseTZcomps r3 with
            | none => none
            | some (th, tm, ts, tus) =>
              let mag : Int := ((th * 3600 + tm * 60 + ts : Nat) : Int) * 1000000 + (tus : Int)
              let off : Int := if c = '-' then -mag else mag
              some (y, m, d, h, mi, s, us, some off)
          else none

/-- Model of `datetime.fromisoformat` on the 3.10 grammar fragment. -/
def fromisoformatL (l : List Char) : Option PyDT :=
  match isoComps l with
  | none => none
  | some (y, m, d, h, mi, s, us, off) => mkDT y m d h mi s us off

/-- UTC normalization: `dt.replace(tzinfo=timezone.utc)` for naive values,
`dt.astimezone(timezone.utc)` for aware ones.  The aware conversion raises
OverflowError when the result leaves the representable datetime range,
which the caller catches; we return `none` there. -/
def toUTCInstant (dt : PyDT) : Option Int :=
  match dt.off with
  | none => some ((toMicro dt.year dt.month dt.day dt.hour dt.minute dt.second dt.usec : Nat) : Int)
  | some o =>
    let i : Int := ((toMicro dt.year dt.month dt.day dt.hour dt.minute dt.second dt.usec : Nat) : Int) - o
    if 0 ≤ i ∧ i ≤ (maxMicro : Int) then some i else none

/-- The whole ISO branch of `parse_date`: fromisoformat followed by UTC
normalization (this is also the Testable Property notion of replacing a
trailing Z and parsing normally). -/
def isoInstant (l : List Char) : Option Int :=
  (fromisoformatL l).bind toUTCInstant

/-! ## strptime (the three fallback formats)

Each numeric directive of `_strptime` matches one or two digits through a
regex alternation that prefers the two-digit form and backtracks to the
one-digit form; `firstSome` reproduces that backtracking. -/

def firstSome {α β : Type} : List α → (α → Option β) → Option β
  | [], _ => none
  | a :: as, f =>
    match f a with
    | some b => some b
    | none => firstSome as f

/-- Candidate parses of one numeric field: the two-digit reading first when
its value is admissible, then the one-digit reading. -/
def cand2or1 (ok2 ok1 : Nat → Bool) (l : List Char) : List (Nat × List Char) :=
  (match l with
   | a :: b :: rest =>
     match dig? a, dig? b with
     | some x, some y => if ok2 (10 * x + y) then [(10 * x + y, rest)] else []
     | _, _ => []
   | _ => []) ++
  (match l with
   | a :: rest =>
     match dig? a with
     | some x => if ok1 x then [(x, rest)] else []
     | none => []
   | [] => [])

def candM (l : List Char) : List (Nat × List Char) :=
  cand2or1 (fun v => decide (1 ≤ v) && decide (v ≤ 12)) (fun v => decide (1 ≤ v)) l

def candD (l : List Char) : List (Nat × List Char) :=
  cand2or1 (fun v => decide (1 ≤ v) && decide (v ≤ 31)) (fun v => decide (1 ≤ v)) l

def candH (l : List Char) : List (Nat × List Char) :=
  cand2or1 (fun v => decide (v ≤ 23)) (fun _ => true) l

def candMin (l : List Char) : List (Nat × List Char) :=
  cand2or1 (fun v => decide (v ≤ 59)) (fun _ => true) l

def candS (l : List Char) : List (Nat × List Char) :=
  cand2or1 (fun v => decide (v ≤ 59)) (fun _ => true) l

/-- Microsecond fragment `%f`: one to six digits, right-padded to six. -/
def fracUS (l : List Char) : Option Nat :=
  let ds := l.takeWhile (fun c => decide ('0' ≤ c ∧ c ≤ '9'))
  if l.drop ds.length = [] ∧ 1 ≤ ds.length ∧ ds.length ≤ 6 then
    some (digitsVal ds * 10 ^ (6 - ds.length))
  else none

/-- Component parse for format `%Y-%m-%d %H:%M:%S.%f`. -/
def strpF1c (l : List Char) : Option (Nat × Nat × Nat × Nat × Nat × Nat × Nat) :=
  match read4 l with
  | none => none
  | some (y, r1) =>
    match r1 with
    | '-' :: r2 =>
      firstSome (candM r2) (fun pm =>
        match pm.2 with
        | '-' :: r4 =>
          firstSome (candD r4) (fun pd =>
            match pd.2 with
            | ' ' :: r6 =>
              firstSome (candH r6) (fun ph =>
                match ph.2 with
                | ':' :: r8 =>
                  firstSome (candMin r8) (fun pmin =>
                    match pmin.2 with
                    | ':' :: r10 =>
                      firstSome (candS r10) (fun ps =>
                        match ps.2 with
                        | '.' :: r12 =>
                          match fracUS r12 with
                          | none => none
                          | some us => some (y, pm.1, pd.1, ph.1, pmin.1, ps.1, us)
                        | _ => none)
                    | _ => none)
                | _ => none)
            | _ => none)
        | _ => none)
    | _ => none

/-- Component parse for format `%Y-%m-%d %H:%M:%S`. -/
def strpF2c (l : List Char) : Option (Nat × Nat × Nat × Nat × Nat × Nat) :=
  match read4 l with
  | none => none
  | some (y, r1) =>
    match r1 with
    | '-' :: r2 =>
      firstSome (candM r2) (fun pm =>
        match pm.2 with
        | '-' :: r4 =>
          firstSome (candD r4) (fun pd =>
            match pd.2 with
            | ' ' :: r6 =>
              firstSome (candH r6) (fun ph =>
                match ph.2 with
                | ':' :: r8 =>
                  firstSome (candMin r8) (fun pmin =>
                    match pmin.2 with
                    | ':' :: r10 =>
                      firstSome (candS r10) (fun ps =>
                        if ps.2 = [] then some (y, pm.1, pd.1, ph.1, pmin.1, ps.1) else none)
                    | _ => none)
                | _ => none)
            | _ => none)
        | _ => none)
    | _ => none

/-- Component parse for format `%Y-%m-%d`. -/
def strpF3c (l : List Char) : Option (Nat × Nat × Nat) :=
  match read4 l with
  | none => none
  | some (y, r1) =>
    match r1 with
    | '-' :: r2 =>
      firstSome (candM r2) (fun pm =>
        match pm.2 with
        | '-' :: r4 =>
          firstSome (candD r4) (fun pd =>
            if pd.2 = [] then some (y, pm.1, pd.1) else none)
        | _ => none)
    | _ => none

def strpF1 (l : List Char) : Option Int :=
  match strpF1c l with
  | none => none
  | some (y, m, d, h, mi, s, us) => mkNaive y m d h mi s us

def strpF2 (l : List Char) : Option Int :=
  match strpF2c l with
  | none => none
  | some (y, m, d, h, mi, s) => mkNaive y m d h mi s 0

def strpF3 (l : List Char) : Option Int :=
  match strpF3c l with
  | none => none
  | some (y, m, d) => mkNaive y m d 0 0 0 0

/-! ## parse_date -/

/-- The body of `parse_date` after the falsiness check: strip, replace a
trailing Z by +00:00 (the rebinding persists into the strptime fallback
attempts), try fromisoformat with UTC normalization, then the three
strptime formats in order.  Result is the UTC instant, or none. -/
def parse_date_chars (l : List Char) : Option Int :=
  let l1 := pyStripChars l
  let t := zrepl l1
  match isoInstant t with
  | some i => some i
  | none =>
    match strpF1 t with
    | some i => some i
    | none =>
      match strpF2 t with
      | some i => some i
      | none => strpF3 t

/-- Model of `parse_date(s)` on its annotated domain `Optional[str]`.  In
Lean the function is total by construction: every failure mode of the
Python code inside its try blocks degrades to `none`. -/
def parse_date : Option String → Option Int
  | none => none
  | some s => if s = "" then none else parse_date_chars s.data

/-- Model of `parse_date(v)` applied to an arbitrary value as the pipeline
does: falsy arguments return None via the `if not s` guard; a truthy
non-string raises AttributeError at `s.strip()`, which is not caught. -/
def parse_date_v : JVal → Except Unit (Option Int)
  | v =>
    if pyFalsy v then Except.ok none
    else
      match v with
      | JVal.str s => Except.ok (parse_date_chars s.data)
      | _ => Except.error ()

/-! ## extract_id_from_detail_url -/

/-- Model of `url.rstrip("/")`: remove every trailing slash. -/
def rstripSlash (l : List Char) : List Char :=
  ((l.reverse.dropWhile (fun c => c == '/'))).reverse

/-- Model of `str.split("/")`. -/
def splitSlash (l : List Char) : List (List Char) :=
  match l with
  | [] => [[]]
  | c :: cs =>
    let r := splitSlash cs
    if c = '/' then [] :: r
    else
      match r with
      | [] => [[c]]
      | x :: xs => (c :: x) :: xs

/-- The string pipeline `url.rstrip("/").split("/")[-1]` guarded by
`if not url`. -/
def extract_id_chars (l : List Char) : List Char :=
  if l = [] then [] else (splitSlash (rstripSlash l)).getLastD []

/-- Model of `extract_id_from_detail_url`.  Falsy arguments return "" via
the `if not url` guard; calling `.rstrip` on a truthy non-string raises
AttributeError, which the surrounding try absorbs into "". -/
def extract_id_from_detail_url (url : JVal) : String :=
  if pyFalsy url then ""
  else
    match url with
    | JVal.str s => String.mk (extract_id_chars s.data)
    | _ => ""

/-! ## flatten_record -/

/-- Model of `"|".join(strings)`. -/
def joinBar : List String → String
  | [] => ""
  | [s] => s
  | s :: rest => s ++ "|" ++ joinBar rest

/-- The string-typed elements of a list, in order: the comprehension
`[p for p in press if isinstance(p, str)]`. -/
def stringElems (xs : List JVal) : List String :=
  xs.filterMap (fun v =>
    match v with
    | JVal.str s => some s
    | _ => none)

/-- Derivation of the `press_urls` column from the raw `press` field. -/
def pressStr (v : JVal) : String :=
  match v with
  | JVal.null => ""
  | JVal.list xs => joinBar (stringElems xs)
  | other => pyStr other

/-- The fixed CSV column list. -/
def CSV_FIELDS : List String :=
  ["id_base64", "victim", "domain", "country", "group", "activity", "attackdate",
   "discovered", "description", "claim_url", "detail_url", "screenshot_url",
   "press_urls", "duplicates_count"]

/-- Model of `flatten_record`.  The only fallible derivation is
`len(rec.get("duplicates", []) or [])`, which raises TypeError when the
value is truthy but unsized. -/
def flatten_record (rec : JRecord) : Except Unit JRecord :=
  match pyLen (pyOr (getJD rec "duplicates" (JVal.list [])) (JVal.list [])) with
  | Except.error e => Except.error e
  | Except.ok dcount =>
    Except.ok
      [("id_base64", JVal.str (extract_id_from_detail_url
          (pyOr (getJD rec "url" (JVal.str "")) (JVal.str "")))),
       ("victim", pyOr (getJ rec "victim") (JVal.str "")),
       ("domain", pyOr (getJ rec "domain") (JVal.str "")),
       ("country", pyOr (getJ rec "country") (JVal.str "")),
       ("group", pyOr (getJ rec "group") (JVal.str "")),
       ("activity", pyOr (getJ rec "activity") (JVal.str "")),
       ("attackdate", pyOr (getJ rec "attackdate") (JVal.str "")),
       ("discovered", pyOr (getJ rec "discovered") (JVal.str "")),
       ("description", pyOr (getJ rec "description") (JVal.str "")),
       ("claim_url", pyOr (getJ rec "claim_url") (JVal.str "")),
       ("detail_url", pyOr (getJ rec "url") (JVal.str "")),
       ("screenshot_url", pyOr (getJ rec "screenshot") (JVal.str "")),
       ("press_urls", JVal.str (pressStr (getJ rec "press"))),
       ("duplicates_count", JVal.num dcount)]

/-- The source field feeding each CSV column. -/
def srcField (k : String) : String :=
  if k = "id_base64" then "url"
  else if k = "detail_url" then "url"
  else if k = "screenshot_url" then "screenshot"
  else if k = "press_urls" then "press"
  else k

/-! ## The filter/sort pipeline of main -/

def US_COUNTRIES : List String := ["US", "UNITED STATES", "USA"]

/-- The country test `(rec.get("country") or "").upper() in (...)`: calling
`.upper()` on a truthy non-string raises AttributeError. -/
def countryTest (rec : JRecord) : Except Unit Bool :=
  match pyOr (getJ rec "country") (JVal.str "") with
  | JVal.str s => Except.ok (US_COUNTRIES.contains (pyUpper s))
  | _ => Except.error ()

/-- The reference-date value `rec.get("discovered") or rec.get("attackdate")
or rec.get("date")`. -/
def refVal (rec : JRecord) : JVal :=
  pyOr (pyOr (getJ rec "discovered") (getJ rec "attackdate")) (getJ rec "date")

/-- One iteration of the filtering loop: whether the record is appended to
`filtered`, or an exception propagates. -/
def includeRec (cutoff : Int) (rec : JRecord) : Except Unit Bool :=
  match countryTest rec with
  | Except.error e => Except.error e
  | Except.ok false => Except.ok false
  | Except.ok true =>
    match parse_date_v (refVal rec) with
    | Except.error e => Except.error e
    | Except.ok none => Except.ok false
    | Except.ok (some dt) => if dt < cutoff then Except.ok false else Except.ok true

/-- The filtering loop over the fetched records, in order. -/
def filterRecs (cutoff : Int) : List JRecord → Except Unit (List JRecord)
  | [] => Except.ok []
  | r :: rs =>
    match includeRec cutoff r with
    | Except.error e => Except.error e
    | Except.ok b =>
      match filterRecs cutoff rs with
      | Except.error e => Except.error e
      | Except.ok rest => Except.ok (if b then r :: rest else rest)

/-- The sort-key value `r.get("discovered") or r.get("attackdate") or ""`. -/
def sortRef (r : JRecord) : JVal :=
  pyOr (pyOr (getJ r "discovered") (getJ r "attackdate")) (JVal.str "")

/-- The instant of `datetime.max.replace(tzinfo=timezone.utc)` used as the
fallback sort key. -/
def dtMaxUTC : Int := (maxMicro : Nat)

/-- The sort key `parse_date(r.get("discovered") or r.get("attackdate") or "")
or datetime.max.replace(tzinfo=timezone.utc)`. -/
def sortKeyE (r : JRecord) : Except Unit Int :=
  match parse_date_v (sortRef r) with
  | Except.error e => Except.error e
  | Except.ok odt => Except.ok (odt.getD dtMaxUTC)

/-- Key extraction for every record, in input order, as `list.sort(key=...)`
does before sorting (decorate-sort-undecorate). -/
def decorate : List JRecord → Except Unit (List (Int × JRecord))
  | [] => Except.ok []
  | r :: rs =>
    match sortKeyE r with
    | Except.error e => Except.error e
    | Except.ok k =>
      match decorate rs with
      | Except.error e => Except.error e
      | Except.ok rest => Except.ok ((k, r) :: rest)

/-- Stable insertion of a keyed element: the element being inserted comes
from earlier in the input than everything already in the sorted list, so it
goes before any element with an equal key. -/
def insortK {α : Type} (p : Int × α) : List (Int × α) → List (Int × α)
  | [] => [p]
  | q :: qs => if q.1 < p.1 then q :: insortK p qs else p :: q :: qs

/-- A stable ascending sort by key, modelling CPython `list.sort`, which
guarantees stability. -/
def ssortK {α : Type} : List (Int × α) → List (Int × α)
  | [] => []
  | p :: ps => insortK p (ssortK ps)

/-- Model of `filtered.sort(key=...)`. -/
def sortStage (rs : List JRecord) : Except Unit (List JRecord) :=
  match decorate rs with
  | Except.error e => Except.error e
  | Except.ok keyed => Except.ok ((ssortK keyed).map Prod.snd)

/-- The cutoff `datetime.now(timezone.utc) - timedelta(days=days)` as an
instant, `now` being the current UTC instant. -/
def mkCutoff (now : Int) (days : Int) : Int :=
  now - days * 86400000000

/-! ## Definitions written from the wording of the specification

These two are compared against the source-derived definitions by the
refinement claims; they are intentionally phrased after the words of the
spec rather than the code. -/

/-- Modelled from the spec: the last non-empty path segment of a URL string. -/
def lastNonEmptySegment (l : List Char) : List Char :=
  ((splitSlash l).filter (fun seg => !seg.isEmpty)).getLastD []

/-- Modelled from the spec: `id_base64` is the last non-empty path segment of
the detail URL after stripping a trailing slash, empty if the URL is empty. -/
def specIdOfUrl (l : List Char) : List Char :=
  if l = [] then []
  else lastNonEmptySegment (if l.getLast? = some '/' then l.dropLast else l)

/-- Modelled from the spec: replacing the trailing "Z" by "+00:00". -/
def replaceZspec (l : List Char) : List Char :=
  l.dropLast ++ ['+', '0', '0', ':', '0', '0']

/-- Modelled from the spec: parsing an ISO string normally, yielding its UTC
instant. -/
def parseNormally (l : List Char) : Option Int :=
  (fromisoformatL l).bind toUTCInstant

/-! ## Concrete records used by the witness theorems -/

def exToOpt : Except Unit Int → Option Int
  | Except.ok v => some v
  | Except.error _ => none

def recW1 : JRecord := [("country", JVal.str "US"), ("discovered", JVal.str "2025-01-01T00:00:00Z")]

def nowW1 : Int := ((toMicro 2025 1 15 0 0 0 0 : Nat) : Int)

def iW1 : Int := ((toMicro 2025 1 1 0 0 0 0 : Nat) : Int)

def recW2 : JRecord := [("country", JVal.str "us"), ("discovered", JVal.str "not-a-date")]

def recW3a : JRecord := [("victim", JVal.str "a"), ("discovered", JVal.str "2025-01-02")]

def recW3b : JRecord := [("victim", JVal.str "b"), ("discovered", JVal.str "2025-01-01")]

def gW (r : JRecord) : Int := (exToOpt (sortKeyE r)).getD 0

def recW4 : JRecord := [("country", JVal.str "DE"), ("discovered", JVal.str "2025-01-01")]

def recW4b : JRecord := [("country", JVal.str "Usa")]

def recW5 : JRecord := [("duplicates", JVal.list [JVal.null, JVal.str "x"])]

def recW6 : JRecord := [("url", JVal.str "https://x.example/report/abc123/")]

def recW7 : JRecord := [("press", JVal.list [JVal.str "http://a", JVal.str "http://b"])]

def recW7b : JRecord := [("press", JVal.null)]

def recW10 : JRecord := []

/-! ## Lemmas: the filtering loop -/

theorem mem_filterRecs {c : Int} {rs out : List JRecord} {x : JRecord}
    (h : filterRecs c rs = Except.ok out) :
    x ∈ out ↔ x ∈ rs ∧ includeRec c x = Except.ok true := by
  induction rs generalizing out with
  | nil =>
    simp only [filterRecs, Except.ok.injEq] at h
    subst h
    simp
  | cons r rest ih =>
    simp only [filterRecs] at h
    cases hr : includeRec c r with
    | error e => rw [hr] at h; cases h
    | ok b =>
      rw [hr] at h
      cases hrest : filterRecs c rest with
      | error e => rw [hrest] at h; cases h
      | ok outRest =>
        rw [hrest] at h
        simp only [Except.ok.injEq] at h
        subst h
        cases b with
        | true =>
          rw [if_pos rfl]
          constructor
          · intro hx
            rcases List.mem_cons.mp hx with rfl | hx
            · exact ⟨List.mem_cons_self _ _, hr⟩
            · obtain ⟨h1, h2⟩ := (ih hrest).mp hx
              exact ⟨List.mem_cons_of_mem _ h1, h2⟩
          · rintro ⟨hx, hinc⟩
            rcases List.mem_cons.mp hx with rfl | hx
            · exact List.mem_cons_self _ _
            · exact List.mem_cons_of_mem _ ((ih hrest).mpr ⟨hx, hinc⟩)
        | false =>
          rw [if_neg (by simp)]
          rw [ih hrest]
          constructor
          · rintro ⟨h1, h2⟩
            exact ⟨List.mem_cons_of_mem _ h1, h2⟩
          · rintro ⟨hx, hinc⟩
            rcases List.mem_cons.mp hx with rfl | hx
            · rw [hr] at hinc
              simp at hinc
            · exact ⟨hx, hinc⟩

/-! ## Lemmas: the stable insertion sort -/

theorem mem_insortK {α : Type} {p x : Int × α} {l : List (Int × α)} :
    x ∈ insortK p l ↔ x = p ∨ x ∈ l := by
  induction l with
  | nil => simp [insortK]
  | cons q qs ih =>
    simp only [insortK]
    split
    · rw [List.mem_cons, ih, List.mem_cons]
      tauto
    · exact List.mem_cons

theorem pairwise_insortK {α : Type} (p : Int × α) (l : List (Int × α))
    (h : l.Pairwise (fun a b => a.1 ≤ b.1)) :
    (insortK p l).Pairwise (fun a b => a.1 ≤ b.1) := by
  induction l with
  | nil => simp [insortK]
  | cons q qs ih =>
    rcases List.pairwise_cons.mp h with ⟨hq, hqs⟩
    simp only [insortK]
    split
    · rename_i hlt
      refine List.pairwise_cons.mpr ⟨?_, ih hqs⟩
      intro x hx
      rcases mem_insortK.mp hx with rfl | hx
      · exact le_of_lt hlt
      · exact hq x hx
    · rename_i hnlt
      refine List.pairwise_cons.mpr ⟨?_, h⟩
      intro x hx
      rcases List.mem_cons.mp hx with rfl | hx
      · omega
      · have := hq x hx
        omega

theorem pairwise_ssortK {α : Type} (l : List (Int × α)) :
    (ssortK l).Pairwise (fun a b => a.1 ≤ b.1) := by
  induction l with
  | nil => exact List.Pairwise.nil
  | cons p ps ih => exact pairwise_insortK p _ ih

theorem mem_ssortK {α : Type} {x : Int × α} {l : List (Int × α)} :
    x ∈ ssortK l ↔ x ∈ l := by
  induction l with
  | nil => simp [ssortK]
  | cons p ps ih =>
    simp only [ssortK]
    rw [mem_insortK, ih]
    exact (List.mem_cons).symm

theorem filter_insortK_eq {α : Type} (k : Int) (p : Int × α) (l : List (Int × α))
    (hp : p.1 = k) :
    (insortK p l).filter (fun q => q.1 == k) = p :: l.filter (fun q => q.1 == k) := by
  induction l with
  | nil => simp [insortK, List.filter_cons, hp]
  | cons q qs ih =>
    simp only [insortK]
    split
    · rename_i hlt
      have hqk : (q.1 == k) = false := by
        simp only [beq_eq_false_iff_ne, ne_eq]
        omega
      simp [List.filter_cons, hqk, ih]
    · simp [List.filter_cons, hp]

theorem filter_insortK_ne {α : Type} (k : Int) (p : Int × α) (l : List (Int × α))
    (hp : (p.1 == k) = false) :
    (insortK p l).filter (fun q => q.1 == k) = l.filter (fun q => q.1 == k) := by
  induction l with
  | nil => simp [insortK, List.filter_cons, hp]
  | cons q qs ih =>
    simp only [insortK]
    split
    · simp [List.filter_cons, ih]
    · simp [List.filter_cons, hp]

theorem filter_ssortK {α : Type} (k : Int) (l : List (Int × α)) :
    (ssortK l).filter (fun q => q.1 == k) = l.filter (fun q => q.1 == k) := by
  induction l with
  | nil => rfl
  | cons p ps ih =>
    simp only [ssortK]
    by_cases hp : p.1 = k
    · rw [filter_insortK_eq k p _ hp, ih, List.filter_cons]
      simp [hp]
    · have hp2 : (p.1 == k) = false := by simp [hp]
      rw [filter_insortK_ne k p _ hp2, ih, List.filter_cons]
      simp [hp2]

theorem filter_map_snd {α : Type} (g : α → Int) (k : Int) (l : List (Int × α))
    (hinv : ∀ p ∈ l, p.1 = g p.2) :
    (l.map Prod.snd).filter (fun r => g r == k)
      = (l.filter (fun q => q.1 == k)).map Prod.snd := by
  induction l with
  | nil => rfl
  | cons q qs ih =>
    have hq := hinv q (List.mem_cons_self _ _)
    have ih2 := ih (fun p hp => hinv p (List.mem_cons_of_mem _ hp))
    simp only [List.map_cons, List.filter_cons, ← hq]
    cases hqk : (q.1 == k) with
    | true => simp [ih2]
    | false => simp [ih2]

theorem pairwise_map_snd {α : Type} (g : α → Int) (l : List (Int × α))
    (hinv : ∀ p ∈ l, p.1 = g p.2)
    (h : l.Pairwise (fun a b => a.1 ≤ b.1)) :
    (l.map Prod.snd).Pairwise (fun a b => g a ≤ g b) := by
  induction l with
  | nil => exact List.Pairwise.nil
  | cons q qs ih =>
    rcases List.pairwise_cons.mp h with ⟨hq, hqs⟩
    refine List.pairwise_cons.mpr ⟨?_, ih (fun p hp => hinv p (List.mem_cons_of_mem _ hp)) hqs⟩
    intro x hx
    rcases List.mem_map.mp hx with ⟨p, hp, rfl⟩
    have h1 := hinv q (List.mem_cons_self _ _)
    have h2 := hinv p (List.mem_cons_of_mem _ hp)
    rw [← h1, ← h2]
    exact hq p hp

/-! ## Lemmas: every parseable instant is bounded by `maxMicro` -/

theorem dbm_d_le (leap : Bool) (m d : Nat) (hm1 : 1 ≤ m) (hm : m ≤ 12)
    (hd : d ≤ daysInMonthL leap m) :
    daysBeforeMonth leap m + d ≤ 365 + (if leap then 1 else 0) := by
  cases leap <;> interval_cases m <;>
    simp_all [daysBeforeMonth, daysInMonthL, baseDBM] <;> omega

theorem toDays_le (y m d : Nat) (hy1 : 1 ≤ y) (hy : y ≤ 9999) (hm1 : 1 ≤ m)
    (hm : m ≤ 12) (hd1 : 1 ≤ d) (hd : d ≤ daysInMonth y m) :
    toDays y m d ≤ 3652058 := by
  have hb := dbm_d_le (isLeap y) m d hm1 hm (by rwa [daysInMonth] at hd)
  by_cases hy9 : y = 9999
  · subst hy9
    have hleap : isLeap 9999 = false := by decide
    have hb3 : daysBeforeMonth (isLeap 9999) m + d ≤ 365 := by
      rw [hleap] at hb ⊢
      simpa using hb
    simp only [toDays]
    omega
  · have hy2 : y ≤ 9998 := by omega
    have hb2 : daysBeforeMonth (isLeap y) m + d ≤ 366 := by
      cases hc : isLeap y <;> simp_all
      all_goals omega
    simp only [toDays]
    omega

theorem toDays_max : toDays 9999 12 31 = 3652058 := by decide

theorem maxMicro_val : maxMicro = 315537897599999999 := by decide

theorem toMicro_le (y m d h mi s us : Nat) (hy1 : 1 ≤ y) (hy : y ≤ 9999)
    (hm1 : 1 ≤ m) (hm : m ≤ 12) (hd1 : 1 ≤ d) (hd : d ≤ daysInMonth y m) (hh : h ≤ 23)
    (hmi : mi ≤ 59) (hs : s ≤ 59) (hus : us ≤ 999999) :
    toMicro y m d h mi s us ≤ maxMicro := by
  have htd := toDays_le y m d hy1 hy hm1 hm hd1 hd
  rw [maxMicro_val]
  simp only [toMicro]
  have : toDays y m d * 86400 ≤ 3652058 * 86400 := Nat.mul_le_mul_right _ htd
  have h2 : toDays y m d * 86400 + h * 3600 + mi * 60 + s ≤ 315537897599 := by omega
  have h3 : (toDays y m d * 86400 + h * 3600 + mi * 60 + s) * 1000000
      ≤ 315537897599 * 1000000 := Nat.mul_le_mul_right _ h2
  omega

theorem validAllB_props {y m d h mi s us : Nat} (hv : validAllB y m d h mi s us = true) :
    1 ≤ y ∧ y ≤ 9999 ∧ 1 ≤ m ∧ m ≤ 12 ∧ 1 ≤ d ∧ d ≤ daysInMonth y m
      ∧ h ≤ 23 ∧ mi ≤ 59 ∧ s ≤ 59 ∧ us ≤ 999999 := by
  simp only [validAllB, Bool.and_eq_true, decide_eq_true_eq] at hv
  tauto

theorem mkNaive_bound {y m d h mi s us : Nat} {i : Int}
    (h : mkNaive y m d h mi s us = some i) : 0 ≤ i ∧ i ≤ (maxMicro : Int) := by
  simp only [mkNaive] at h
  split at h
  · rename_i hv
    obtain ⟨h1, h2, h3, h4, h5, h6, h7, h8, h9, h10⟩ := validAllB_props hv
    simp only [Option.some.injEq] at h
    subst h
    refine ⟨Int.ofNat_nonneg _, ?_⟩
    exact_mod_cast toMicro_le y m d h mi s us h1 h2 h3 h4 h5 h6 h7 h8 h9 h10
  · cases h

theorem mkDT_valid {y m d h mi s us : Nat} {off : Option Int} {dt : PyDT}
    (hmk : mkDT y m d h mi s us off = some dt) :
    dt = ⟨y, m, d, h, mi, s, us, off⟩ ∧ validAllB y m d h mi s us = true := by
  simp only [mkDT] at hmk
  split at hmk
  · rename_i hv
    simp only [Option.some.injEq] at hmk
    simp only [Bool.and_eq_true] at hv
    exact ⟨hmk.symm, hv.1⟩
  · cases hmk

theorem fromisoformat_valid {l : List Char} {dt : PyDT}
    (h : fromisoformatL l = some dt) :
    validAllB dt.year dt.month dt.day dt.hour dt.minute dt.second dt.usec = true := by
  simp only [fromisoformatL] at h
  cases hc : isoComps l with
  | none => rw [hc] at h; cases h
  | some comps =>
    rw [hc] at h
    obtain ⟨y, m, d, hh, mi, s, us, off⟩ := comps
    obtain ⟨rfl, hv⟩ := mkDT_valid h
    exact hv

theorem toUTCInstant_bound {dt : PyDT} {i : Int}
    (hv : validAllB dt.year dt.month dt.day dt.hour dt.minute dt.second dt.usec = true)
    (h : toUTCInstant dt = some i) : 0 ≤ i ∧ i ≤ (maxMicro : Int) := by
  obtain ⟨h1, h2, h3, h4, h5, h6, h7, h8, h9, h10⟩ := validAllB_props hv
  have hb : toMicro dt.year dt.month dt.day dt.hour dt.minute dt.second dt.usec ≤ maxMicro :=
    toMicro_le _ _ _ _ _ _ _ h1 h2 h3 h4 h5 h6 h7 h8 h9 h10
  cases hoff : dt.off with
  | none =>
    simp only [toUTCInstant, hoff, Option.some.injEq] at h
    subst h
    exact ⟨Int.ofNat_nonneg _, by exact_mod_cast hb⟩
  | some o =>
    simp only [toUTCInstant, hoff] at h
    split at h
    · rename_i hrange
      simp only [Option.some.injEq] at h
      subst h
      exact hrange
    · cases h

theorem isoInstant_bound {l : List Char} {i : Int} (h : isoInstant l = some i) :
    0 ≤ i ∧ i ≤ (maxMicro : Int) := by
  simp only [isoInstant] at h
  cases hc : fromisoformatL l with
  | none => rw [hc] at h; cases h
  | some dt =>
    rw [hc] at h
    exact toUTCInstant_bound (fromisoformat_valid hc) h

theorem strpF1_bound {l : List Char} {i : Int} (h : strpF1 l = some i) :
    0 ≤ i ∧ i ≤ (maxMicro : Int) := by
  simp only [strpF1] at h
  cases hc : strpF1c l with
  | none => rw [hc] at h; cases h
  | some comps =>
    rw [hc] at h
    obtain ⟨y, m, d, hh, mi, s, us⟩ := comps
    exact mkNaive_bound h

theorem strpF2_bound {l : List Char} {i : Int} (h : strpF2 l = some i) :
    0 ≤ i ∧ i ≤ (maxMicro : Int) := by
  simp only [strpF2] at h
  cases hc : strpF2c l with
  | none => rw [hc] at h; cases h
  | some comps =>
    rw [hc] at h
    obtain ⟨y, m, d, hh, mi, s⟩ := comps
    exact mkNaive_bound h

theorem strpF3_bound {l : List Char} {i : Int} (h : strpF3 l = some i) :
    0 ≤ i ∧ i ≤ (maxMicro : Int) := by
  simp only [strpF3] at h
  cases hc : strpF3c l with
  | none => rw [hc] at h; cases h
  | some comps =>
    rw [hc] at h
    obtain ⟨y, m, d⟩ := comps
    exact mkNaive_bound h

theorem parse_date_chars_bound {l : List Char} {i : Int}
    (h : parse_date_chars l = some i) : 0 ≤ i ∧ i ≤ (maxMicro : Int) := by
  simp only [parse_date_chars] at h
  cases h1 : isoInstant (zrepl (pyStripChars l)) with
  | some j =>
    rw [h1] at h
    simp only [Option.some.injEq] at h
    subst h
    exact isoInstant_bound h1
  | none =>
    rw [h1] at h
    cases h2 : strpF1 (zrepl (pyStripChars l)) with
    | some j =>
      rw [h2] at h
      simp only [Option.some.injEq] at h
      subst h
      exact strpF1_bound h2
    | none =>
      rw [h2] at h
      cases h3 : strpF2 (zrepl (pyStripChars l)) with
      | some j =>
        rw [h3] at h
        simp only [Option.some.injEq] at h
        subst h
        exact strpF2_bound h3
      | none =>
        rw [h3] at h
        exact strpF3_bound h

/-! ## Lemmas: the URL id extraction agrees with the last non-empty segment -/

theorem splitSlash_cons (c : Char) (cs : List Char) :
    splitSlash (c :: cs) =
      if c = '/' then [] :: splitSlash cs
      else
        match splitSlash cs with
        | [] => [[c]]
        | x :: xs => (c :: x) :: xs := rfl

theorem splitSlash_ne_nil (l : List Char) : splitSlash l ≠ [] := by
  cases l with
  | nil => simp [splitSlash]
  | cons c cs =>
    simp only [splitSlash]
    split
    · simp
    · cases hS : splitSlash cs <;> simp

theorem splitSlash_append_slash (l : List Char) :
    splitSlash (l ++ ['/']) = splitSlash l ++ [[]] := by
  induction l with
  | nil => rfl
  | cons c cs ih =>
    rw [List.cons_append, splitSlash_cons, splitSlash_cons, ih]
    by_cases hc : c = '/'
    · rw [if_pos hc, if_pos hc]
      rfl
    · rw [if_neg hc, if_neg hc]
      cases hS : splitSlash cs with
      | nil => exact absurd hS (splitSlash_ne_nil cs)
      | cons x0 xs0 => rfl

theorem lastNonEmptySegment_append_slash (l : List Char) :
    lastNonEmptySegment (l ++ ['/']) = lastNonEmptySegment l := by
  simp [lastNonEmptySegment, splitSlash_append_slash, List.filter_append]

theorem head?_dropWhile_false {α : Type} (p : α → Bool) (l : List α) {a : α}
    (h : (l.dropWhile p).head? = some a) : p a = false := by
  induction l with
  | nil => simp [List.dropWhile] at h
  | cons b bs ih =>
    rw [List.dropWhile_cons] at h
    by_cases hb : p b = true
    · rw [if_pos hb] at h
      exact ih h
    · rw [if_neg hb] at h
      simp only [List.head?_cons, Option.some.injEq] at h
      subst h
      simpa using hb

theorem rstripSlash_append_slash (xs : List Char) :
    rstripSlash (xs ++ ['/']) = rstripSlash xs := by
  simp only [rstripSlash, List.reverse_append, List.reverse_cons, List.reverse_nil,
    List.nil_append, List.cons_append]
  rw [List.dropWhile_cons]
  simp

theorem rstripSlash_of_getLast_ne {l : List Char} {x : Char}
    (h : l.getLast? = some x) (hx : x ≠ '/') : rstripSlash l = l := by
  cases hrev : l.reverse with
  | nil =>
    have : l = [] := by simpa using congrArg List.reverse hrev
    subst this
    simp at h
  | cons y ys =>
    have hy : y = x := by
      have h1 : l.reverse.head? = some y := by rw [hrev]; rfl
      rw [List.head?_reverse, h] at h1
      injection h1 with h2
      exact h2.symm
    subst hy
    simp only [rstripSlash, hrev]
    rw [List.dropWhile_cons]
    rw [if_neg (by simpa using hx)]
    rw [← hrev, List.reverse_reverse]

theorem getLast?_rstripSlash_ne_slash (l : List Char) :
    rstripSlash l ≠ [] → rstripSlash l ≠ [] ∧ (rstripSlash l).getLast? ≠ some '/' := by
  intro hne
  refine ⟨hne, ?_⟩
  intro hlast
  have h1 : (rstripSlash l).getLast? = ((l.reverse.dropWhile (fun c => c == '/')).reverse).getLast? := rfl
  rw [List.getLast?_reverse] at h1
  rw [hlast] at h1
  have h2 := head?_dropWhile_false (fun c => c == '/') l.reverse h1.symm
  simp at h2

theorem getLast?_filter_of_getLast {α : Type} (p : α → Bool) (l : List α)
    (h : ∃ a, l.getLast? = some a ∧ p a = true) :
    (l.filter p).getLast? = l.getLast? := by
  induction l with
  | nil =>
    obtain ⟨a, ha, _⟩ := h
    simp at ha
  | cons b bs ih =>
    obtain ⟨a, ha, hpa⟩ := h
    cases bs with
    | nil =>
      simp only [List.getLast?_singleton, Option.some.injEq] at ha
      subst ha
      simp [List.filter_cons, hpa]
    | cons c cs =>
      rw [List.getLast?_cons_cons] at ha
      have ih2 := ih ⟨a, ha, hpa⟩
      rw [List.getLast?_cons_cons]
      rw [List.filter_cons]
      by_cases hb : p b = true
      · rw [if_pos hb]
        cases hf : (c :: cs).filter p with
        | nil =>
          rw [hf] at ih2
          rw [ha] at ih2
          simp at ih2
        | cons d ds =>
          rw [hf] at ih2
          rw [List.getLast?_cons_cons, ih2, ha]
      · rw [if_neg hb, ih2, ha]

theorem splitSlash_getLast_ne_nil (l : List Char) (hne : l ≠ [])
    (hlast : l.getLast? ≠ some '/') :
    ∃ a, (splitSlash l).getLast? = some a ∧ a ≠ [] := by
  induction l with
  | nil => exact absurd rfl hne
  | cons c cs ih =>
    cases hcs : cs with
    | nil =>
      subst hcs
      have hc : c ≠ '/' := by
        intro hc
        subst hc
        exact hlast rfl
      refine ⟨[c], ?_, by simp⟩
      rw [splitSlash_cons, if_neg hc]
      rfl
    | cons c2 cs2 =>
      subst hcs
      have hlast2 : (c2 :: cs2).getLast? ≠ some '/' := by
        rwa [List.getLast?_cons_cons] at hlast
      obtain ⟨a, ha, hane⟩ := ih (by simp) hlast2
      by_cases hc : c = '/'
      · subst hc
        refine ⟨a, ?_, hane⟩
        cases hS : splitSlash (c2 :: cs2) with
        | nil => exact absurd hS (splitSlash_ne_nil _)
        | cons x xs =>
          rw [hS] at ha
          have hred : splitSlash ('/' :: c2 :: cs2) = [] :: x :: xs := by
            rw [splitSlash_cons, hS, if_pos rfl]
          rw [hred, List.getLast?_cons_cons]
          exact ha
      · cases hS : splitSlash (c2 :: cs2) with
        | nil => exact absurd hS (splitSlash_ne_nil _)
        | cons x xs =>
          rw [hS] at ha
          have hred : splitSlash (c :: c2 :: cs2) = (c :: x) :: xs := by
            rw [splitSlash_cons, hS, if_neg hc]
          cases hxs : xs with
          | nil =>
            subst hxs
            simp only [List.getLast?_singleton, Option.some.injEq] at ha
            subst ha
            refine ⟨c :: x, ?_, by simp⟩
            rw [hred]
            rfl
          | cons y ys =>
            subst hxs
            refine ⟨a, ?_, hane⟩
            rw [hred, List.getLast?_cons_cons]
            rw [List.getLast?_cons_cons] at ha
            exact ha

theorem lastNonEmptySegment_rstrip (l : List Char) :
    lastNonEmptySegment l = lastNonEmptySegment (rstripSlash l) := by
  induction l using List.reverseRecOn with
  | nil => rfl
  | append_singleton xs x ih =>
    by_cases hx : x = '/'
    · subst hx
      rw [lastNonEmptySegment_append_slash, rstripSlash_append_slash]
      exact ih
    · have hgl : (xs ++ [x]).getLast? = some x := by simp
      rw [rstripSlash_of_getLast_ne hgl hx]

theorem lastNonEmptySegment_dropOne (l : List Char) (hne : l ≠ []) :
    lastNonEmptySegment (if l.getLast? = some '/' then l.dropLast else l)
      = lastNonEmptySegment l := by
  by_cases hl : l.getLast? = some '/'
  · rw [if_pos hl]
    have h1 : l.dropLast ++ [l.getLast hne] = l := List.dropLast_append_getLast hne
    have h2 : l.getLast hne = '/' := by
      have h3 := List.getLast?_eq_getLast l hne
      rw [hl] at h3
      injection h3 with h4
      exact h4.symm
    rw [h2] at h1
    conv_rhs => rw [← h1]
    rw [lastNonEmptySegment_append_slash]
  · rw [if_neg hl]

theorem extract_eq_spec (l : List Char) : extract_id_chars l = specIdOfUrl l := by
  by_cases hl : l = []
  · subst hl
    rfl
  · simp only [extract_id_chars, specIdOfUrl, if_neg hl]
    rw [lastNonEmptySegment_dropOne l hl, lastNonEmptySegment_rstrip l]
    by_cases hr : rstripSlash l = []
    · rw [hr]
      rfl
    · obtain ⟨hne, hlast⟩ := getLast?_rstripSlash_ne_slash l hr
      obtain ⟨a, ha, hane⟩ := splitSlash_getLast_ne_nil (rstripSlash l) hne hlast
      have hfa : (fun seg => !seg.isEmpty) a = true := by
        simp only [Bool.not_eq_true']
        cases a with
        | nil => exact absurd rfl hane
        | cons u us => rfl
      rw [lastNonEmptySegment, List.getLastD_eq_getLast?, List.getLastD_eq_getLast?]
      rw [getLast?_filter_of_getLast _ _ ⟨a, ha, hfa⟩]

theorem decorate_ok {rs : List JRecord} {g : JRecord → Int}
    (hg : ∀ r ∈ rs, sortKeyE r = Except.ok (g r)) :
    decorate rs = Except.ok (rs.map (fun r => (g r, r))) := by
  induction rs with
  | nil => rfl
  | cons r rest ih =>
    simp only [decorate]
    rw [hg r (List.mem_cons_self _ _), ih (fun x hx => hg x (List.mem_cons_of_mem _ hx))]
    rfl

theorem filter_keyed_map {α : Type} (g : α → Int) (k : Int) (rs : List α) :
    ((rs.map (fun r => (g r, r))).filter (fun q => q.1 == k)).map Prod.snd
      = rs.filter (fun r => g r == k) := by
  induction rs with
  | nil => rfl
  | cons r rest ih =>
    cases hk : (g r == k) with
    | true => simp [List.filter_cons, hk, ih]
    | false => simp [List.filter_cons, hk, ih]

/-! ## Lemmas: the sort key -/

theorem parse_date_v_some_bound {v : JVal} {i : Int}
    (h : parse_date_v v = Except.ok (some i)) : 0 ≤ i ∧ i ≤ (maxMicro : Int) := by
  simp only [parse_date_v] at h
  split at h
  · simp at h
  · cases v with
    | str s =>
      simp only [Except.ok.injEq] at h
      exact parse_date_chars_bound h
    | null => cases h
    | bool b => cases h
    | num n => cases h
    | list xs => cases h

theorem sortKeyE_le {r : JRecord} {v : Int} (h : sortKeyE r = Except.ok v) :
    v ≤ dtMaxUTC := by
  simp only [sortKeyE] at h
  cases hp : parse_date_v (sortRef r) with
  | error e => rw [hp] at h; cases h
  | ok odt =>
    rw [hp] at h
    simp only [Except.ok.injEq] at h
    subst h
    cases odt with
    | none => exact le_refl _
    | some i =>
      have hb := parse_date_v_some_bound hp
      simp only [Option.getD_some]
      simpa [dtMaxUTC] using hb.2

theorem sortKeyE_unparsable {r : JRecord}
    (h : parse_date_v (sortRef r) = Except.ok none) :
    sortKeyE r = Except.ok dtMaxUTC := by
  simp [sortKeyE, h]

theorem sortKeyE_parsed {r : JRecord} {i : Int}
    (h : parse_date_v (sortRef r) = Except.ok (some i)) :
    sortKeyE r = Except.ok i := by
  simp [sortKeyE, h]

/-! ## Lemmas: the per-record inclusion decision -/

theorem includeRec_char (c : Int) {rec : JRecord} {i : Int}
    (hc : countryTest rec = Except.ok true)
    (hd : parse_date_v (refVal rec) = Except.ok (some i)) :
    includeRec c rec = Except.ok (decide (c ≤ i)) := by
  simp only [includeRec, hc, hd]
  by_cases hlt : i < c
  · rw [if_pos hlt]
    have : ¬ c ≤ i := by omega
    simp [this]
  · rw [if_neg hlt]
    have : c ≤ i := by omega
    simp [this]

theorem includeRec_none_not_true {c : Int} {rec : JRecord}
    (hn : parse_date_v (refVal rec) = Except.ok none) :
    includeRec c rec ≠ Except.ok true := by
  intro htrue
  cases hct : countryTest rec with
  | error e => simp [includeRec, hct] at htrue
  | ok b =>
    cases b with
    | false => simp [includeRec, hct] at htrue
    | true => simp [includeRec, hct, hn] at htrue

/-! ## Lemmas: the shape of a flattened row -/

theorem flatten_inv {rec row : JRecord} (hflat : flatten_record rec = Except.ok row) :
    ∃ dcount : Int,
      pyLen (pyOr (getJD rec "duplicates" (JVal.list [])) (JVal.list [])) = Except.ok dcount
      ∧ row =
      [("id_base64", JVal.str (extract_id_from_detail_url
          (pyOr (getJD rec "url" (JVal.str "")) (JVal.str "")))),
       ("victim", pyOr (getJ rec "victim") (JVal.str "")),
       ("domain", pyOr (getJ rec "domain") (JVal.str "")),
       ("country", pyOr (getJ rec "country") (JVal.str "")),
       ("group", pyOr (getJ rec "group") (JVal.str "")),
       ("activity", pyOr (getJ rec "activity") (JVal.str "")),
       ("attackdate", pyOr (getJ rec "attackdate") (JVal.str "")),
       ("discovered", pyOr (getJ rec "discovered") (JVal.str "")),
       ("description", pyOr (getJ rec "description") (JVal.str "")),
       ("claim_url", pyOr (getJ rec "claim_url") (JVal.str "")),
       ("detail_url", pyOr (getJ rec "url") (JVal.str "")),
       ("screenshot_url", pyOr (getJ rec "screenshot") (JVal.str "")),
       ("press_urls", JVal.str (pressStr (getJ rec "press"))),
       ("duplicates_count", JVal.num dcount)] := by
  simp only [flatten_record] at hflat
  cases hl : pyLen (pyOr (getJD rec "duplicates" (JVal.list [])) (JVal.list [])) with
  | error e => rw [hl] at hflat; cases hflat
  | ok dcount =>
    rw [hl] at hflat
    simp only [Except.ok.injEq] at hflat
    exact ⟨dcount, rfl, hflat.symm⟩

theorem flatten_id {rec row : JRecord} (hflat : flatten_record rec = Except.ok row) :
    jget row "id_base64" = some (JVal.str (extract_id_from_detail_url
      (pyOr (getJD rec "url" (JVal.str "")) (JVal.str "")))) := by
  obtain ⟨dcount, _, hrow⟩ := flatten_inv hflat
  subst hrow
  rfl

theorem flatten_press {rec row : JRecord} (hflat : flatten_record rec = Except.ok row) :
    jget row "press_urls" = some (JVal.str (pressStr (getJ rec "press"))) := by
  obtain ⟨dcount, _, hrow⟩ := flatten_inv hflat
  subst hrow
  rfl

theorem extract_id_str_spec (s : String) :
    extract_id_from_detail_url (JVal.str s) = String.mk (specIdOfUrl s.data) := by
  by_cases hse : s = ""
  · subst hse
    rfl
  · have hf : pyFalsy (JVal.str s) = false := by simp [pyFalsy, hse]
    simp only [extract_id_from_detail_url, hf]
    rw [if_neg (by simp)]
    rw [extract_eq_spec]

/-! ## The claims -/

/-- C1: for every raw record whose country value is in the accepted US set
and whose reference date parses to instant i, the record is in the filtered
output iff i is at least the cutoff now - days; a record exactly at the
cutoff is included, one strictly earlier is excluded. -/
theorem C1_cutoff_boundary (now days : Int) (rs out : List JRecord)
    (rec : JRecord) (s : String) (i : Int)
    (hcv : pyOr (getJ rec "country") (JVal.str "") = JVal.str s)
    (hus : US_COUNTRIES.contains (pyUpper s) = true)
    (hdate : parse_date_v (refVal rec) = Except.ok (some i))
    (hrun : filterRecs (mkCutoff now days) rs = Except.ok out)
    (hmem : rec ∈ rs) :
    (rec ∈ out ↔ mkCutoff now days ≤ i)
    ∧ (i = mkCutoff now days → rec ∈ out)
    ∧ (i < mkCutoff now days → rec ∉ out) := by
  have hct : countryTest rec = Except.ok true := by
    have hus2 : pyUpper s ∈ US_COUNTRIES := by simpa using hus
    simp [countryTest, hcv, hus2]
  have hinc := includeRec_char (mkCutoff now days) hct hdate
  have hiff := (mem_filterRecs hrun :
    rec ∈ out ↔ rec ∈ rs ∧ includeRec (mkCutoff now days) rec = Except.ok true)
  have hmain : rec ∈ out ↔ mkCutoff now days ≤ i := by
    rw [hiff]
    constructor
    · rintro ⟨_, hinc2⟩
      rw [hinc] at hinc2
      simpa using hinc2
    · intro hle
      refine ⟨hmem, ?_⟩
      rw [hinc]
      simp [hle]
  refine ⟨hmain, ?_, ?_⟩
  · intro heq
    exact hmain.mpr (by omega)
  · intro hlt hmemout
    have := hmain.mp hmemout
    omega

/-- C1 witness: a US record whose discovered instant equals the cutoff
exactly (now = 2025-01-15, 14 lookback days, discovered 2025-01-01) is
retained. -/
theorem C1_cutoff_boundary_witness :
    ((recW1 ∈ ([recW1] : List JRecord)) ↔ mkCutoff nowW1 14 ≤ iW1)
    ∧ (iW1 = mkCutoff nowW1 14 → recW1 ∈ ([recW1] : List JRecord))
    ∧ (iW1 < mkCutoff nowW1 14 → recW1 ∉ ([recW1] : List JRecord)) :=
  C1_cutoff_boundary nowW1 14 [recW1] [recW1] recW1 "US" iW1 rfl rfl rfl rfl
    (List.mem_singleton.mpr rfl)

/-- C2: the reference date is discovered if truthy, else attackdate if
truthy, else the generic date field, fed to the Date Normalizer; a record
whose reference date fails to parse is excluded from the output with no
error raised (the inclusion decision is an ok false, not an exception). -/
theorem C2_reference_date (rec : JRecord) (c : Int) (rs out : List JRecord) :
    (pyFalsy (getJ rec "discovered") = false → refVal rec = getJ rec "discovered")
    ∧ (pyFalsy (getJ rec "discovered") = true → pyFalsy (getJ rec "attackdate") = false →
        refVal rec = getJ rec "attackdate")
    ∧ (pyFalsy (getJ rec "discovered") = true → pyFalsy (getJ rec "attackdate") = true →
        refVal rec = getJ rec "date")
    ∧ (countryTest rec = Except.ok true → parse_date_v (refVal rec) = Except.ok none →
        includeRec c rec = Except.ok false)
    ∧ (filterRecs c rs = Except.ok out → parse_date_v (refVal rec) = Except.ok none →
        rec ∉ out) := by
  refine ⟨?_, ?_, ?_, ?_, ?_⟩
  · intro h1
    simp [refVal, pyOr, h1]
  · intro h1 h2
    simp [refVal, pyOr, h1, h2]
  · intro h1 h2
    simp [refVal, pyOr, h1, h2]
  · intro hct hn
    simp [includeRec, hct, hn]
  · intro hrun hn hmem
    have h := (mem_filterRecs hrun).mp hmem
    exact includeRec_none_not_true hn h.2

/-- C2 witness: a record with a truthy but unparsable discovered value uses
that value as reference date and is dropped from the output. -/
theorem C2_reference_date_witness :
    refVal recW2 = getJ recW2 "discovered" ∧ recW2 ∉ ([] : List JRecord) :=
  ⟨(C2_reference_date recW2 0 [recW2] []).1 rfl,
   (C2_reference_date recW2 0 [recW2] []).2.2.2.2 rfl rfl⟩

/-- C3: the surviving records are sorted ascending by the key derived from
discovered preferentially, else attackdate (the generic date field plays no
part); unparsable sort keys become the maximal instant and sort last; the
sort is stable: for every key value the records carrying it keep their
input order. -/
theorem C3_sort_stable (rs out : List JRecord) (g : JRecord → Int)
    (hg : ∀ r ∈ rs, sortKeyE r = Except.ok (g r))
    (hrun : sortStage rs = Except.ok out) :
    out.Pairwise (fun a b => g a ≤ g b)
    ∧ (∀ k : Int, out.filter (fun r => g r == k) = rs.filter (fun r => g r == k))
    ∧ (∀ r ∈ rs, g r ≤ dtMaxUTC)
    ∧ (∀ r ∈ rs, parse_date_v (sortRef r) = Except.ok none → g r = dtMaxUTC)
    ∧ (∀ r ∈ rs, ∀ i : Int, parse_date_v (sortRef r) = Except.ok (some i) → g r = i)
    ∧ (∀ r1 r2 : JRecord, getJ r1 "discovered" = getJ r2 "discovered" →
        getJ r1 "attackdate" = getJ r2 "attackdate" → sortKeyE r1 = sortKeyE r2) := by
  have hdec : decorate rs = Except.ok (rs.map (fun r => (g r, r))) := decorate_ok hg
  have hout : out = (ssortK (rs.map (fun r => (g r, r)))).map Prod.snd := by
    simp [sortStage, hdec] at hrun
    exact hrun.symm
  have hinv : ∀ p ∈ ssortK (rs.map (fun r => (g r, r))), p.1 = g p.2 := by
    intro p hp
    have hp2 : p ∈ rs.map (fun r => (g r, r)) := mem_ssortK.mp hp
    obtain ⟨r, hr, rfl⟩ := List.mem_map.mp hp2
    rfl
  refine ⟨?_, ?_, ?_, ?_, ?_, ?_⟩
  · rw [hout]
    exact pairwise_map_snd g _ hinv (pairwise_ssortK _)
  · intro k
    rw [hout, filter_map_snd g k _ hinv, filter_ssortK, filter_keyed_map]
  · intro r hr
    exact sortKeyE_le (hg r hr)
  · intro r hr hnone
    have h2 := (hg r hr).symm.trans (sortKeyE_unparsable hnone)
    injection h2
  · intro r hr i hi
    have h2 := (hg r hr).symm.trans (sortKeyE_parsed hi)
    injection h2
  · intro r1 r2 h1 h2
    simp [sortKeyE, sortRef, h1, h2]

/-- C3 witness: two US-agnostic records with discovered dates out of order
are returned sorted ascending, and all the key facts hold at them. -/
theorem C3_sort_stable_witness :
    ([recW3b, recW3a] : List JRecord).Pairwise (fun a b => gW a ≤ gW b)
    ∧ (∀ k : Int, ([recW3b, recW3a] : List JRecord).filter (fun r => gW r == k)
        = ([recW3a, recW3b] : List JRecord).filter (fun r => gW r == k))
    ∧ (∀ r ∈ ([recW3a, recW3b] : List JRecord), gW r ≤ dtMaxUTC)
    ∧ (∀ r ∈ ([recW3a, recW3b] : List JRecord),
        parse_date_v (sortRef r) = Except.ok none → gW r = dtMaxUTC)
    ∧ (∀ r ∈ ([recW3a, recW3b] : List JRecord), ∀ i : Int,
        parse_date_v (sortRef r) = Except.ok (some i) → gW r = i)
    ∧ (∀ r1 r2 : JRecord, getJ r1 "discovered" = getJ r2 "discovered" →
        getJ r1 "attackdate" = getJ r2 "attackdate" → sortKeyE r1 = sortKeyE r2) :=
  C3_sort_stable [recW3a, recW3b] [recW3b, recW3a] gW
    (by
      intro r hr
      rcases List.mem_cons.mp hr with rfl | hr2
      · rfl
      · rcases List.mem_cons.mp hr2 with rfl | hr3
        · rfl
        · cases hr3)
    rfl

/-- C4: a record whose country value, upper-cased, is not in the US set
(including an absent country) is excluded from the output whatever its
dates; a record whose upper-cased country is in the set passes the country
test. -/
theorem C4_country_gate (c : Int) (rs out : List JRecord) (rec : JRecord)
    (hrun : filterRecs c rs = Except.ok out) :
    (∀ s : String, pyOr (getJ rec "country") (JVal.str "") = JVal.str s →
        US_COUNTRIES.contains (pyUpper s) = false → rec ∉ out)
    ∧ (jget rec "country" = none → rec ∉ out)
    ∧ (∀ s : String, pyOr (getJ rec "country") (JVal.str "") = JVal.str s →
        US_COUNTRIES.contains (pyUpper s) = true → countryTest rec = Except.ok true) := by
  have hexc : ∀ s : String, pyOr (getJ rec "country") (JVal.str "") = JVal.str s →
      US_COUNTRIES.contains (pyUpper s) = false → rec ∉ out := by
    intro s hcv hfalse hmem
    have h := (mem_filterRecs hrun).mp hmem
    have htrue := h.2
    have hnm : pyUpper s ∉ US_COUNTRIES := by simpa using hfalse
    simp [includeRec, countryTest, hcv, hnm] at htrue
  refine ⟨hexc, ?_, ?_⟩
  · intro habs
    refine hexc "" ?_ (by decide)
    simp [getJ, habs, pyOr, pyFalsy]
  · intro s hcv hus
    have hus2 : pyUpper s ∈ US_COUNTRIES := by simpa using hus
    simp [countryTest, hcv, hus2]

/-- C4 witness: a German record with a valid date is dropped, and a record
with a mixed-case Usa country passes the country test. -/
theorem C4_country_gate_witness :
    recW4 ∉ ([] : List JRecord) ∧ countryTest recW4b = Except.ok true :=
  ⟨(C4_country_gate 0 [recW4] [] recW4 rfl).1 "DE" rfl rfl,
   (C4_country_gate 0 [] [] recW4b rfl).2.2 "Usa" rfl rfl⟩

/-- C5 counterexample: flattening a record whose duplicates field is the
truthy number 1 raises a TypeError at len, so flattening does fail and no
row is produced. -/
theorem C5_flatten_total_counterexample :
    flatten_record [("duplicates", JVal.num 1)] = Except.error ()
    ∧ ¬ ∃ row : JRecord, flatten_record [("duplicates", JVal.num 1)] = Except.ok row := by
  have h : flatten_record [("duplicates", JVal.num 1)] = Except.error () := rfl
  refine ⟨h, ?_⟩
  rintro ⟨row, hrow⟩
  rw [h] at hrow
  cases hrow

/-- C5 amended: duplicates_count is the entry count of the duplicates list
(0 when the field is absent or falsy, since the falsy value is replaced by
an empty list); a truthy string duplicates value yields its character
count; flattening raises a TypeError, the only fatal record-level
derivation, when the duplicates value is truthy but unsized (a number or
boolean). -/
theorem C5_duplicates_count (rec : JRecord) :
    (∀ xs : List JVal,
      pyOr (getJD rec "duplicates" (JVal.list [])) (JVal.list []) = JVal.list xs →
        ∃ row : JRecord, flatten_record rec = Except.ok row ∧
          jget row "duplicates_count" = some (JVal.num (xs.length : Int)))
    ∧ (∀ s : String,
      pyOr (getJD rec "duplicates" (JVal.list [])) (JVal.list []) = JVal.str s →
        ∃ row : JRecord, flatten_record rec = Except.ok row ∧
          jget row "duplicates_count" = some (JVal.num (s.length : Int)))
    ∧ (∀ n : Int,
      pyOr (getJD rec "duplicates" (JVal.list [])) (JVal.list []) = JVal.num n →
        flatten_record rec = Except.error ())
    ∧ (∀ b : Bool,
      pyOr (getJD rec "duplicates" (JVal.list [])) (JVal.list []) = JVal.bool b →
        flatten_record rec = Except.error ()) := by
  refine ⟨?_, ?_, ?_, ?_⟩
  · intro xs hdv
    obtain ⟨row, hok⟩ : ∃ row : JRecord, flatten_record rec = Except.ok row := by
      simp only [flatten_record, hdv, pyLen]
      exact ⟨_, rfl⟩
    refine ⟨row, hok, ?_⟩
    obtain ⟨dcount, hlen, hrow⟩ := flatten_inv hok
    subst hrow
    rw [hdv] at hlen
    simp only [pyLen, Except.ok.injEq] at hlen
    subst hlen
    rfl
  · intro s hdv
    obtain ⟨row, hok⟩ : ∃ row : JRecord, flatten_record rec = Except.ok row := by
      simp only [flatten_record, hdv, pyLen]
      exact ⟨_, rfl⟩
    refine ⟨row, hok, ?_⟩
    obtain ⟨dcount, hlen, hrow⟩ := flatten_inv hok
    subst hrow
    rw [hdv] at hlen
    simp only [pyLen, Except.ok.injEq] at hlen
    subst hlen
    rfl
  · intro n hdv
    simp only [flatten_record, hdv, pyLen]
  · intro b hdv
    simp only [flatten_record, hdv, pyLen]

/-- C5 amended witness: a two-element duplicates list flattens with
duplicates_count 2. -/
theorem C5_duplicates_count_witness :
    ∃ row : JRecord, flatten_record recW5 = Except.ok row ∧
      jget row "duplicates_count" = some (JVal.num ((2 : Nat) : Int)) :=
  (C5_duplicates_count recW5).1 [JVal.null, JVal.str "x"] rfl

/-- C6: the id_base64 column is exactly the last non-empty path segment of
the url field after stripping a trailing slash (proved against the
spec-worded definition specIdOfUrl), and is the empty string when the url
is absent or not a string. -/
theorem C6_id_base64 (rec row : JRecord) (hflat : flatten_record rec = Except.ok row) :
    (∀ s : String, pyOr (getJD rec "url" (JVal.str "")) (JVal.str "") = JVal.str s →
        jget row "id_base64" = some (JVal.str (String.mk (specIdOfUrl s.data))))
    ∧ (jget rec "url" = none → jget row "id_base64" = some (JVal.str ""))
    ∧ (∀ v : JVal, pyOr (getJD rec "url" (JVal.str "")) (JVal.str "") = v →
        (∀ s : String, v ≠ JVal.str s) → jget row "id_base64" = some (JVal.str "")) := by
  have hid := flatten_id hflat
  refine ⟨?_, ?_, ?_⟩
  · intro s hs
    rw [hid, hs, extract_id_str_spec]
  · intro habs
    rw [hid]
    have hval : pyOr (getJD rec "url" (JVal.str "")) (JVal.str "") = JVal.str "" := by
      simp [getJD, habs, pyOr, pyFalsy]
    rw [hval]
    rfl
  · intro v hv hns
    rw [hid, hv]
    cases v with
    | str s => exact absurd rfl (hns s)
    | null => rfl
    | bool b => cases b <;> rfl
    | num n =>
      simp only [extract_id_from_detail_url]
      split <;> rfl
    | list xs =>
      simp only [extract_id_from_detail_url]
      split <;> rfl

/-- C6 witness: the sample detail URL yields abc123, and a record without
any url yields the empty id. -/
theorem C6_id_base64_witness :
    (∃ row : JRecord, flatten_record recW6 = Except.ok row ∧
      jget row "id_base64" = some (JVal.str "abc123"))
    ∧ (∃ row : JRecord, flatten_record recW10 = Except.ok row ∧
      jget row "id_base64" = some (JVal.str "")) := by
  constructor
  · obtain ⟨row, hq⟩ : ∃ row, flatten_record recW6 = Except.ok row := ⟨_, rfl⟩
    refine ⟨row, hq, ?_⟩
    have h := (C6_id_base64 recW6 row hq).1 "https://x.example/report/abc123/" rfl
    exact h.trans (by rfl)
  · obtain ⟨row, hq⟩ : ∃ row, flatten_record recW10 = Except.ok row := ⟨_, rfl⟩
    exact ⟨row, hq, (C6_id_base64 recW10 row hq).2.1 rfl⟩

/-- C7: press_urls is empty when press is absent or null, the bar-joined
string elements when press is a list (non-strings dropped), and the
stringification of the raw value otherwise. -/
theorem C7_press_urls (rec row : JRecord) (hflat : flatten_record rec = Except.ok row) :
    (getJ rec "press" = JVal.null → jget row "press_urls" = some (JVal.str ""))
    ∧ (∀ xs : List JVal, getJ rec "press" = JVal.list xs →
        jget row "press_urls" = some (JVal.str (joinBar (stringElems xs))))
    ∧ (∀ v : JVal, getJ rec "press" = v → v ≠ JVal.null → (∀ xs : List JVal, v ≠ JVal.list xs) →
        jget row "press_urls" = some (JVal.str (pyStr v))) := by
  have hp := flatten_press hflat
  refine ⟨?_, ?_, ?_⟩
  · intro hnull
    rw [hp, hnull]
    rfl
  · intro xs hlist
    rw [hp, hlist]
    rfl
  · intro v hv hnn hnl
    rw [hp, hv]
    cases v with
    | null => exact absurd rfl hnn
    | list xs => exact absurd rfl (hnl xs)
    | str s => rfl
    | num n => rfl
    | bool b => rfl

/-- C7 witness: a press list of two URL strings joins with a bar, and a
null press flattens to the empty string. -/
theorem C7_press_urls_witness :
    (∃ row : JRecord, flatten_record recW7 = Except.ok row ∧
      jget row "press_urls" = some (JVal.str "http://a|http://b"))
    ∧ (∃ row : JRecord, flatten_record recW7b = Except.ok row ∧
      jget row "press_urls" = some (JVal.str "")) := by
  constructor
  · obtain ⟨row, hq⟩ : ∃ row, flatten_record recW7 = Except.ok row := ⟨_, rfl⟩
    refine ⟨row, hq, ?_⟩
    have h := (C7_press_urls recW7 row hq).2.1 [JVal.str "http://a", JVal.str "http://b"] rfl
    exact h.trans (by rfl)
  · obtain ⟨row, hq⟩ : ∃ row, flatten_record recW7b = Except.ok row := ⟨_, rfl⟩
    exact ⟨row, hq, (C7_press_urls recW7b row hq).1 rfl⟩

/-- C8: on a string whose stripped form ends in Z and whose Z-replaced form
is valid ISO-8601 yielding UTC instant i, parse_date returns exactly that
instant, the same one obtained by replacing the trailing Z with +00:00 and
parsing normally. -/
theorem C8_trailing_z (s : String) (dt : PyDT) (i : Int)
    (hz : endsZ (pyStripChars s.data) = true)
    (hiso : fromisoformatL (replaceZspec (pyStripChars s.data)) = some dt)
    (hutc : toUTCInstant dt = some i) :
    parse_date (some s) = some i
    ∧ parseNormally (replaceZspec (pyStripChars s.data)) = some i := by
  have hzr : zrepl (pyStripChars s.data) = replaceZspec (pyStripChars s.data) := by
    simp [zrepl, replaceZspec, hz]
  have hsne : s ≠ "" := by
    intro h
    subst h
    simp [pyStripChars, endsZ, List.dropWhile] at hz
  have hio : isoInstant (replaceZspec (pyStripChars s.data)) = some i := by
    simp [isoInstant, hiso, hutc]
  constructor
  · simp only [parse_date, if_neg hsne, parse_date_chars, hzr, hio]
  · simp [parseNormally, hiso, hutc]

/-- C8 witness: the sample Z string parses to midnight UTC of 2025-01-01,
the same instant the +00:00 replacement yields. -/
theorem C8_trailing_z_witness :
    parse_date (some "2025-01-01T00:00:00Z") = some iW1
    ∧ parseNormally (replaceZspec (pyStripChars "2025-01-01T00:00:00Z".data)) = some iW1 :=
  C8_trailing_z "2025-01-01T00:00:00Z" ⟨2025, 1, 1, 0, 0, 0, 0, some 0⟩ iW1 rfl rfl rfl

/-- C9: parse_date is total over optional strings: absent, empty,
whitespace-only and all-formats-fail inputs give none; applying it through
the pipeline wrapper to any string never raises (always an ok result). -/
theorem C9_parse_total :
    parse_date none = none
    ∧ parse_date (some "") = none
    ∧ (∀ s : String, pyStripChars s.data = [] → parse_date (some s) = none)
    ∧ (∀ s : String,
        isoInstant (zrepl (pyStripChars s.data)) = none →
        strpF1 (zrepl (pyStripChars s.data)) = none →
        strpF2 (zrepl (pyStripChars s.data)) = none →
        strpF3 (zrepl (pyStripChars s.data)) = none →
        parse_date (some s) = none)
    ∧ (∀ s : String, parse_date_v (JVal.str s) = Except.ok (parse_date (some s)))
    ∧ parse_date_v JVal.null = Except.ok none := by
  refine ⟨rfl, rfl, ?_, ?_, ?_, rfl⟩
  · intro s hstrip
    by_cases hse : s = ""
    · subst hse
      rfl
    · simp only [parse_date, if_neg hse, parse_date_chars, hstrip]
      rfl
  · intro s h1 h2 h3 h4
    by_cases hse : s = ""
    · subst hse
      rfl
    · simp only [parse_date, if_neg hse, parse_date_chars, h1, h2, h3, h4]
  · intro s
    by_cases hse : s = ""
    · subst hse
      rfl
    · simp [parse_date_v, pyFalsy, parse_date, hse]

/-- C9 witness: a garbage string fails fromisoformat and all three strptime
formats and normalizes to none. -/
theorem C9_parse_total_witness : parse_date (some "hello world") = none :=
  C9_parse_total.2.2.2.1 "hello world" rfl rfl rfl rfl

/-- C10: every successfully flattened row has exactly the 14 CSV column
keys in order, and every column except duplicates_count holds a string
whenever its source field is absent or falsy. -/
theorem C10_row_shape (rec row : JRecord) (hflat : flatten_record rec = Except.ok row) :
    row.map Prod.fst = CSV_FIELDS
    ∧ (∀ k ∈ CSV_FIELDS, k ≠ "duplicates_count" →
        pyFalsy (getJ rec (srcField k)) = true →
        ∃ s : String, jget row k = some (JVal.str s)) := by
  obtain ⟨dcount, _, hrow⟩ := flatten_inv hflat
  subst hrow
  refine ⟨rfl, ?_⟩
  intro k hk hne hfal
  simp only [CSV_FIELDS, List.mem_cons, List.not_mem_nil, or_false] at hk
  rcases hk with rfl | rfl | rfl | rfl | rfl | rfl | rfl | rfl | rfl | rfl | rfl | rfl | rfl | rfl
  · exact ⟨_, rfl⟩
  · exact ⟨"", by simp only [jget]; norm_num; simp [pyOr, srcField] at hfal ⊢; simp [hfal]⟩
  · exact ⟨"", by simp only [jget]; norm_num; simp [pyOr, srcField] at hfal ⊢; simp [hfal]⟩
  · exact ⟨"", by simp only [jget]; norm_num; simp [pyOr, srcField] at hfal ⊢; simp [hfal]⟩
  · exact ⟨"", by simp only [jget]; norm_num; simp [pyOr, srcField] at hfal ⊢; simp [hfal]⟩
  · exact ⟨"", by simp only [jget]; norm_num; simp [pyOr, srcField] at hfal ⊢; simp [hfal]⟩
  · exact ⟨"", by simp only [jget]; norm_num; simp [pyOr, srcField] at hfal ⊢; simp [hfal]⟩
  · exact ⟨"", by simp only [jget]; norm_num; simp [pyOr, srcField] at hfal ⊢; simp [hfal]⟩
  · exact ⟨"", by simp only [jget]; norm_num; simp [pyOr, srcField] at hfal ⊢; simp [hfal]⟩
  · exact ⟨"", by simp only [jget]; norm_num; simp [pyOr, srcField] at hfal ⊢; simp [hfal]⟩
  · exact ⟨"", by simp only [jget]; norm_num; simp [pyOr, srcField] at hfal ⊢; simp [hfal]⟩
  · exact ⟨"", by simp only [jget]; norm_num; simp [pyOr, srcField] at hfal ⊢; simp [hfal]⟩
  · exact ⟨_, rfl⟩
  · exact absurd rfl hne

/-- C10 witness: flattening the empty record gives a row with exactly the
14 CSV columns and a string victim value. -/
theorem C10_row_shape_witness :
    ∃ row : JRecord, flatten_record recW10 = Except.ok row ∧
      row.map Prod.fst = CSV_FIELDS ∧
      ∃ s : String, jget row "victim" = some (JVal.str s) := by
  obtain ⟨row, hq⟩ : ∃ row, flatten_record recW10 = Except.ok row := ⟨_, rfl⟩
  have h := C10_row_shape recW10 row hq
  exact ⟨row, hq, h.1, h.2 "victim" (by decide) (by decide) rfl⟩

end RansomPull
